import Mathlib

/-!
Shallow embedding of `src/internal/multirun.go`.  The source file holds two
draft variants of the same program (separated in the file); definitions carry
the suffix `V1` (lines 1-323) or `V2` (lines 324-527).  Bytes and strings are
modelled as `List Char`; machine integers that never overflow in the relevant
ranges (exit codes, the `jobs` field) are `Int`.  Child-process behaviour that
the operating system decides (exit codes, launch failures) is passed in as an
explicit oracle `beh`, so every executor is a pure function of the plan and of
the per-command outcomes.
-/

namespace Multirun

/-- One command record (`commandBlob`, multirun.go lines 34-39, and `Command`,
lines 340-345): a path, a tag, an argument vector and a declared environment
map (modelled as an association list with unique keys, matching a Go map). -/
structure CommandBlob where
  path : List Char
  tag : List Char
  args : List (List Char)
  env : List (List Char × List Char)
deriving DecidableEq, Repr

/-- The instruction document (`instructionsFile`, lines 41-49, and
`Instructions`, lines 347-355). -/
structure InstructionsFile where
  commands : List CommandBlob
  jobs : Int
  printCommand : Bool
  keepGoing : Bool
  bufferOutput : Bool
  forwardStdin : Bool
  workspaceName : List Char
deriving DecidableEq, Repr

/-- Classification of a non-nil error returned by `cmd.Run()` in the first
serial executor (lines 173-183): either a `*exec.ExitError` carrying the
child's exit code, or any other error — in particular the `*exec.Error` /
`*os.PathError` produced when the command cannot be launched (nonexistent or
non-executable path). -/
inductive RunError where
  | exitError (code : Int)
  | otherError
deriving DecidableEq, Repr

/-- Outcome of one iteration of the first serial executor: `launchCommand`
itself returned an error (line 165, possible only on the Windows shim path),
or the command was handed to `cmd.Run()` with the given result (`none` means
it ran and exited with status 0). -/
inductive SerialBehavior where
  | launchErr
  | ran (result : Option RunError)
deriving DecidableEq, Repr

/-- The first serial executor (`runSerial`, multirun.go lines 159-186) as a
function of each command's outcome.  It returns the boolean the function
reports and the list of commands the loop reached, in order.  Faithful to the
source: a `launchCommand` error and an `*exec.ExitError` check `keepGoing`
and otherwise continue; a `cmd.Run()` error that is not an `*exec.ExitError`
(a launch failure) matches no branch of the type switch and falls through to
the next iteration whatever `keepGoing` is; for an `*exec.ExitError` under
`keepGoing` both the `ExitCode() != 0` branch (`continue`) and the
fall-through reach the next iteration, so they are modelled identically. -/
def runSerialV1 (keepGoing : Bool) (beh : CommandBlob → SerialBehavior) :
    List CommandBlob → Bool × List CommandBlob
  | [] => (true, [])
  | blob :: rest =>
    match beh blob with
    | .launchErr =>
      if keepGoing then
        let r := runSerialV1 keepGoing beh rest
        (r.1, blob :: r.2)
      else (false, [blob])
    | .ran none =>
      let r := runSerialV1 keepGoing beh rest
      (r.1, blob :: r.2)
    | .ran (some (.exitError _)) =>
      if keepGoing then
        let r := runSerialV1 keepGoing beh rest
        (r.1, blob :: r.2)
      else (false, [blob])
    | .ran (some .otherError) =>
      let r := runSerialV1 keepGoing beh rest
      (r.1, blob :: r.2)

/-- The second serial executor (`runSerial`, lines 384-401): any `cmd.Run()`
error stops the loop when `keepGoing` is false; under `keepGoing` the failure
is only logged to stderr and the loop goes on.  `beh c = none` models a run
that exited 0. -/
def runSerialV2 (keepGoing : Bool) (beh : CommandBlob → Option RunError) :
    List CommandBlob → Bool × List CommandBlob
  | [] => (true, [])
  | c :: rest =>
    match beh c with
    | none =>
      let r := runSerialV2 keepGoing beh rest
      (r.1, c :: r.2)
    | some _ =>
      if keepGoing then
        let r := runSerialV2 keepGoing beh rest
        (r.1, c :: r.2)
      else (false, [c])

/-- Outcome of one command in the first concurrent executor (`runParallel`,
lines 192-268): `launchCommand` returned an error (line 204), `cmd.Start()`
returned an error (line 210), or the process started and `cmd.Wait()`
observed the given exit code (`Wait` returns a non-nil error exactly when the
exit status is nonzero). -/
inductive ParallelBehavior where
  | launchErr
  | startErr
  | exited (code : Int)
deriving DecidableEq, Repr

/-- Whether the command made it into the `procs` list (lines 215-219). -/
def startedOk (b : ParallelBehavior) : Bool :=
  match b with
  | .exited _ => true
  | _ => false

/-- Launch loop of the first concurrent executor (lines 200-220): a launch or
start error goes to stderr, clears the success flag and `continue`s; a
started command is appended to `procs`, so `procs` keeps declared order. -/
def launchPhaseV1 (beh : CommandBlob → ParallelBehavior) :
    List CommandBlob → Bool × List CommandBlob
  | [] => (true, [])
  | c :: rest =>
    let r := launchPhaseV1 beh rest
    match beh c with
    | .launchErr => (false, r.2)
    | .startErr => (false, r.2)
    | .exited _ => (r.1, c :: r.2)

/-- One collect goroutine of the first variant (lines 241-262) for a started
process.  When `pipeStdout` is set it calls `rp.cmd.StdoutPipe()` (line 245)
— but the process was already started at line 210, so Go's `os/exec` returns
a nil reader with an error, the error is discarded, and the nested
`go io.Copy(&captured, outPipe)` calls `Read` on the nil interface: a panic
that is fatal to the whole engine, modelled as `none`.  (The child's stdout
and stderr, still nil at `Start`, went to the null device, so nothing could
have been captured anyway; lines 250-257 are never reached with data.)
When `pipeStdout` is unset the goroutine waits and folds the `Wait` result
(`some` of whether `Wait` returned nil) into the shared flag. -/
def collectOneV1 (pipeStdout : Bool) (beh : CommandBlob → ParallelBehavior)
    (c : CommandBlob) : Option Bool :=
  if pipeStdout then none
  else
    some (match beh c with
      | .exited code => code == 0
      | _ => true)

/-- Collect loop (lines 239-263): one goroutine per started process; a panic
in any of them kills the process before the aggregate is reported (`none`),
otherwise the flag is the conjunction of the per-goroutine `Wait` results. -/
def collectPhaseV1 (pipeStdout : Bool) (beh : CommandBlob → ParallelBehavior) :
    List CommandBlob → Option Bool
  | [] => some true
  | c :: rest =>
    match collectOneV1 pipeStdout beh c, collectPhaseV1 pipeStdout beh rest with
    | none, _ => none
    | _, none => none
    | some b, some bs => some (b && bs)

/-- Outcome of the first concurrent executor: either a collect-goroutine
panic killed the engine (exit status 2, nothing reported), or it completed
with the reported flag; `procs` is the started-command list in both cases
(the launch loop finished before the collect goroutines start). -/
inductive ParallelResult where
  | panicked (procs : List CommandBlob)
  | completed (ok : Bool) (procs : List CommandBlob)
deriving DecidableEq, Repr

/-- The started-command list of a parallel outcome. -/
def ParallelResult.procs : ParallelResult → List CommandBlob
  | .panicked ps => ps
  | .completed _ ps => ps

/-- The first concurrent executor (`runParallel`, lines 192-268): launch
everything, then join everything; `bufferOutput` is the `pipeStdout` flag
the collect goroutines receive. -/
def runParallelV1 (bufferOutput : Bool) (beh : CommandBlob → ParallelBehavior)
    (cmds : List CommandBlob) : ParallelResult :=
  match collectPhaseV1 bufferOutput beh (launchPhaseV1 beh cmds).2 with
  | none => .panicked (launchPhaseV1 beh cmds).2
  | some flag => .completed ((launchPhaseV1 beh cmds).1 && flag) (launchPhaseV1 beh cmds).2

/-- The second concurrent executor (`runParallel`, lines 417-489): every
command is built, `Start` is attempted on every one (an error clears the
flag but does not stop the loop, lines 460-465), and `Wait` is called on
every one (lines 480-485; waiting on a command that never started also
returns an error).  `beh c = none` models a `Start` error, `beh c = some
code` a started process exiting with that code. -/
def runParallelV2 (beh : CommandBlob → Option Int) (cmds : List CommandBlob) : Bool :=
  (cmds.all fun c => (beh c).isSome) &&
    (cmds.all fun c =>
      match beh c with
      | some code => code == 0
      | none => false)

/-- Where a standard stream of a child ends up. -/
inductive StdStream where
  | parentOut
  | parentErr
  | parentIn
  | nullDevice
  | pipeConn
deriving DecidableEq, Repr

/-- The three stdio fields of an `exec.Cmd`; `none` is a nil field. -/
structure CmdStdio where
  stdout : Option StdStream
  stderr : Option StdStream
  stdin : Option StdStream
deriving DecidableEq, Repr

/-- The effective wiring of the three streams once the process starts. -/
structure StdioConfig where
  stdout : StdStream
  stderr : StdStream
  stdin : StdStream
deriving DecidableEq, Repr

/-- How `launchCommand` (lines 84-122) leaves the `exec.Cmd` stdio fields:
with `pipeStdout` false it sets `Stdout`/`Stderr` to the parent's (lines
108-111), otherwise it leaves them nil; with `pipeStdin` true it installs a
stdin pipe via `StdinPipe` (lines 113-119), otherwise `Stdin` stays nil. -/
def launchCommandStdio (pipeStdout pipeStdin : Bool) : CmdStdio :=
  { stdout := if pipeStdout then none else some .parentOut
    stderr := if pipeStdout then none else some .parentErr
    stdin := if pipeStdin then some .pipeConn else none }

/-- Go `os/exec` semantics: a nil `Stdin`, `Stdout` or `Stderr` field
connects that stream of the child to the null device (`os.DevNull`). -/
def effectiveStdio (c : CmdStdio) : StdioConfig :=
  { stdout := c.stdout.getD .nullDevice
    stderr := c.stderr.getD .nullDevice
    stdin := c.stdin.getD .nullDevice }

/-- Serial mode, first variant: `runSerial` calls `launchCommand` with
`pipeStdout = false` and `pipeStdin = false` (line 165). -/
def serialStdioV1 : StdioConfig := effectiveStdio (launchCommandStdio false false)

/-- Serial mode, second variant (lines 389-392): `Stdout` and `Stderr` are
set to the parent's and `Stdin` is never assigned. -/
def serialStdioV2 : StdioConfig :=
  effectiveStdio { stdout := some .parentOut, stderr := some .parentErr, stdin := none }

/-- Key of an environment entry: the bytes before the first `=`, as in the
`dedupEnv` helper of Go `os/exec`. -/
def keyOf (e : List Char) : List Char := e.takeWhile fun c => c ≠ '='

/-- Value of an environment entry: the bytes after the first `=`. -/
def valueOf (e : List Char) : List Char := (e.dropWhile fun c => c ≠ '=').drop 1

/-- `fmt.Sprintf("%s=%s", k, v)` (line 127 and line 380). -/
def envEntry (k v : List Char) : List Char := k ++ '=' :: v

/-- `flattenEnv` (lines 124-130): one `k=v` entry per declared pair.  Go map
iteration order is arbitrary; the declared keys are unique, so any fixed
order has the same lookup semantics. -/
def flattenEnv (env : List (List Char × List Char)) : List (List Char) :=
  env.map fun kv => envEntry kv.1 kv.2

/-- The `cmd.Env` slice both variants build: `os.Environ()` followed by the
declared entries (line 106; lines 377-382). -/
def cmdEnvSlice (parent : List (List Char)) (declared : List (List Char × List Char)) :
    List (List Char) :=
  parent ++ flattenEnv declared

/-- Go `os/exec` deduplicates `cmd.Env` before starting the child
(`Cmd.environ` calls `dedupEnv`), removing duplicate keys in favor of later
values.  This keeps exactly the last entry of each key, in order. -/
def dedupEnv : List (List Char) → List (List Char)
  | [] => []
  | e :: rest =>
    if rest.any (fun r => keyOf r == keyOf e) then dedupEnv rest
    else e :: dedupEnv rest

/-- The environment the child actually observes. -/
def childEnv (parent : List (List Char)) (declared : List (List Char × List Char)) :
    List (List Char) :=
  dedupEnv (cmdEnvSlice parent declared)

/-- First entry whose key is `k`, as `getenv` in the child resolves a name. -/
def lookupEnv (env : List (List Char)) (k : List Char) : Option (List Char) :=
  (env.find? fun e => keyOf e == k).map valueOf

/-- `dropCR` inside `bufio.ScanLines`: one trailing carriage return of a line
token is removed. -/
def dropCR (l : List Char) : List Char :=
  if l.getLast? == some '\r' then l.dropLast else l

/-- Token stream of a `bufio.Scanner` with the default `ScanLines` split:
tokens are the newline-separated lines (carriage return stripped), and a
final non-terminated token is yielded as well.  `cur` is the reversed
accumulator of the current token. -/
def scanLinesAux (cur : List Char) : List Char → List (List Char)
  | [] => if cur.isEmpty then [] else [dropCR cur.reverse]
  | c :: rest =>
    if c = '\n' then dropCR cur.reverse :: scanLinesAux [] rest
    else scanLinesAux (c :: cur) rest

/-- All line tokens the scanner yields for the given input bytes. -/
def scanLines (l : List Char) : List (List Char) := scanLinesAux [] l

/-- Body of a buffered block in the second variant (lines 436-446): the drain
goroutine accumulates `scanner.Text() + "\n"` per token. -/
def bufferedBodyV2 (captured : List Char) : List Char :=
  ((scanLines captured).map fun t => t ++ ['\n']).flatten

/-- The whole block the second variant prints: `fmt.Printf("[%s]\n%s", tag,
buf.String())` (line 444). -/
def emitBufferedV2 (tag captured : List Char) : List Char :=
  '[' :: tag ++ ']' :: '\n' :: bufferedBodyV2 captured

/-- An end of the stdin pipe `exec.Cmd.StdinPipe` creates. -/
inductive PipeEnd where
  | writeEnd
  | readEnd
deriving DecidableEq, Repr

/-- `StdinPipe` wires the pipe's read end into the `cmd.Stdin` field (it is
the child's fd 0 and the parent closes its copy after `Start`). -/
def stdinPipeChildField : PipeEnd := .readEnd

/-- `StdinPipe` returns the pipe's write end to the caller; `launchCommand`
passes it back as `stdinWriter` (lines 113-121). -/
def stdinPipeReturned : PipeEnd := .writeEnd

/-- The handle the first concurrent executor stores in `runningProc.stdin`:
line 215 stores the returned write end, but line 217 then overwrites the
field with `cmd.Stdin.(io.WriteCloser)` — the pipe's read end. -/
def runningProcStdinV1 (pipeStdin : Bool) : Option PipeEnd :=
  let fromLaunch := if pipeStdin then some stdinPipeReturned else none
  if pipeStdin then some stdinPipeChildField else fromLaunch

/-- Bytes that reach the child when `s` is written on the given end of its
stdin pipe: a write on the write end delivers; a write on the read end (a
read-only descriptor, moreover one the parent closed after `Start`) fails,
and `forwardStdin` discards the error (line 143). -/
def deliverWrite (e : PipeEnd) (s : List Char) : List Char :=
  match e with
  | .writeEnd => s
  | .readEnd => []

/-- Per-child delivery of `forwardStdin` (lines 137-153): every scanned line
of the parent's input gets its newline re-appended and is written to the
stored handle; at end of input the handle is closed. -/
def forwardStdinDelivered (h : Option PipeEnd) (lines : List (List Char)) : List Char :=
  match h with
  | none => []
  | some e => (lines.map fun l => deliverWrite e (l ++ ['\n'])).flatten

/-- The parent-directory marker `strings.HasPrefix` tests for (line 73). -/
def marker : List Char := ['.', '.', '/']

/-- `filepath.Join(workspace, p)` up to lexical cleaning, followed by
`filepath.ToSlash`, which is the identity off Windows; no claim depends on
the cleaning `Join` performs. -/
def joinPath (ws p : List Char) : List Char := ws ++ '/' :: p

/-- `scriptPath` (lines 71-77).  `rloc` models `runfiles.Rlocation`.  The Go
function returns a nil error on both branches; the error component is kept
to mirror the signature. -/
def scriptPath (rloc : List Char → List Char) (workspace p : List Char) :
    List Char × Option (List Char) :=
  if List.isPrefixOf marker p then (rloc (p.drop 3), none)
  else (rloc (joinPath workspace p), none)

/-- How `main` consumes `scriptPath` for one command (lines 304-309). -/
def scriptPathResolver (rloc : List Char → List Char) (ws : List Char) :
    CommandBlob → Except (List Char) (List Char) := fun c =>
  match scriptPath rloc ws c.path with
  | (p, none) => .ok p
  | (_, some e) => .error e

/-- Resolution loop of `main` (lines 302-310): each command's path is
replaced in declared order; the first error is printed and the process exits
with status 1 before anything runs. -/
def resolveAll (res : CommandBlob → Except (List Char) (List Char)) :
    List CommandBlob → Except (List Char) (List CommandBlob)
  | [] => .ok []
  | c :: rest =>
    match res c with
    | .error e => .error e
    | .ok p =>
      match resolveAll res rest with
      | .error e => .error e
      | .ok cs => .ok ({ c with path := p } :: cs)

/-- Result of `main` after the instruction file has been parsed:
a pre-execution abort in the resolution loop, a crash of the selected
executor (the buffered collect panic), or a completed run with the reported
flag.  The `parallel` component records which executor ran. -/
inductive MainOutcome where
  | configAbort (e : List Char)
  | panicked (parallel : Bool) (trace : List CommandBlob)
  | ran (parallel : Bool) (ok : Bool) (trace : List CommandBlob)
deriving DecidableEq, Repr

/-- Which executor an outcome came from (`none` for the pre-execution
abort, which starts no executor at all). -/
def MainOutcome.ranParallel : MainOutcome → Option Bool
  | .configAbort _ => none
  | .panicked p _ => some p
  | .ran p _ _ => some p

/-- `main` of the first variant after loading (lines 302-323): resolve every
path, then run exactly one executor — the concurrent one when `jobs == 0`,
the serial one otherwise.  `trace` is the command list the executor reached
(serial) or started (concurrent). -/
def mainRunV1 (res : CommandBlob → Except (List Char) (List Char))
    (behS : CommandBlob → SerialBehavior) (behP : CommandBlob → ParallelBehavior)
    (instr : InstructionsFile) : MainOutcome :=
  match resolveAll res instr.commands with
  | .error e => .configAbort e
  | .ok cmds =>
    if instr.jobs = 0 then
      match runParallelV1 instr.bufferOutput behP cmds with
      | .panicked ps => .panicked true ps
      | .completed ok ps => .ran true ok ps
    else
      let r := runSerialV1 instr.keepGoing behS cmds
      .ran false r.1 r.2

/-- A concrete command used by concrete evaluations. -/
def blobA : CommandBlob := { path := ['a'], tag := ['A'], args := [], env := [] }

/-- A second concrete command. -/
def blobB : CommandBlob := { path := ['b'], tag := ['B'], args := [], env := [] }

/-- A one-command serial plan used by concrete evaluations. -/
def instrSerialOne : InstructionsFile :=
  { commands := [blobA], jobs := 1, printCommand := false, keepGoing := false
    bufferOutput := false, forwardStdin := false, workspaceName := ['w'] }

/-- A one-command concurrent plan used by concrete evaluations. -/
def instrParallelOne : InstructionsFile :=
  { commands := [blobA], jobs := 0, printCommand := false, keepGoing := false
    bufferOutput := false, forwardStdin := false, workspaceName := ['w'] }

/-- A serial behaviour oracle where every command exits 0. -/
def behSOk : CommandBlob → SerialBehavior := fun _ => .ran none

/-- A concurrent behaviour oracle where every command exits 0. -/
def behPOk : CommandBlob → ParallelBehavior := fun _ => .exited 0

/-- A resolver that fails on every command, exercising the abort branch of
the resolution loop. -/
def resFail : CommandBlob → Except (List Char) (List Char) := fun _ => .error ['b']

/-- A concrete parent environment with two variables `A=1` and `B=2`. -/
def parentEnvSample : List (List Char) := [envEntry ['A'] ['1'], envEntry ['B'] ['2']]

/-- A concrete declared environment map overriding `A`. -/
def declaredSample : List (List Char × List Char) := [(['A'], ['9'])]

theorem runSerialV1_keepGoing (beh : CommandBlob → SerialBehavior) :
    ∀ cmds : List CommandBlob, runSerialV1 true beh cmds = (true, cmds) := by
  intro cmds
  induction cmds with
  | nil => rfl
  | cons c rest ih =>
    cases hb : beh c with
    | launchErr => simp [runSerialV1, hb, ih]
    | ran r =>
      cases r with
      | none => simp [runSerialV1, hb, ih]
      | some e =>
        cases e with
        | exitError code => simp [runSerialV1, hb, ih]
        | otherError => simp [runSerialV1, hb, ih]

theorem runSerialV2_keepGoing (beh : CommandBlob → Option RunError) :
    ∀ cmds : List CommandBlob, runSerialV2 true beh cmds = (true, cmds) := by
  intro cmds
  induction cmds with
  | nil => rfl
  | cons c rest ih =>
    cases hb : beh c with
    | none => simp [runSerialV2, hb, ih]
    | some e => simp [runSerialV2, hb, ih]

theorem runSerialV1_trace_sublist (kg : Bool) (beh : CommandBlob → SerialBehavior) :
    ∀ cmds : List CommandBlob, ((runSerialV1 kg beh cmds).2).Sublist cmds := by
  intro cmds
  induction cmds with
  | nil => exact List.Sublist.refl _
  | cons c rest ih =>
    cases hb : beh c with
    | launchErr =>
      cases kg with
      | true => simpa [runSerialV1, hb] using ih.cons₂ c
      | false => simp [runSerialV1, hb]
    | ran r =>
      cases r with
      | none => simpa [runSerialV1, hb] using ih.cons₂ c
      | some e =>
        cases e with
        | exitError code =>
          cases kg with
          | true => simpa [runSerialV1, hb] using ih.cons₂ c
          | false => simp [runSerialV1, hb]
        | otherError => simpa [runSerialV1, hb] using ih.cons₂ c

theorem launchPhaseV1_spec (beh : CommandBlob → ParallelBehavior) :
    ∀ cmds : List CommandBlob,
      launchPhaseV1 beh cmds =
        (cmds.all fun c => startedOk (beh c), cmds.filter fun c => startedOk (beh c)) := by
  intro cmds
  induction cmds with
  | nil => rfl
  | cons c rest ih =>
    cases hb : beh c with
    | launchErr => simp [launchPhaseV1, hb, ih, startedOk]
    | startErr => simp [launchPhaseV1, hb, ih, startedOk]
    | exited code => simp [launchPhaseV1, hb, ih, startedOk]

theorem collectPhaseV1_unbuffered (beh : CommandBlob → ParallelBehavior) :
    ∀ procs : List CommandBlob,
      collectPhaseV1 false beh procs =
        some (procs.all fun c =>
          match beh c with
          | ParallelBehavior.exited code => code == 0
          | _ => true) := by
  intro procs
  induction procs with
  | nil => rfl
  | cons c rest ih => simp [collectPhaseV1, collectOneV1, ih, List.all_cons]

theorem runParallelV1_procs (bo : Bool) (beh : CommandBlob → ParallelBehavior)
    (cmds : List CommandBlob) :
    (runParallelV1 bo beh cmds).procs = cmds.filter fun c => startedOk (beh c) := by
  unfold runParallelV1
  cases hcol : collectPhaseV1 bo beh (launchPhaseV1 beh cmds).2 <;>
    simp [ParallelResult.procs, launchPhaseV1_spec]

theorem runParallelV1_unbuffered (beh : CommandBlob → ParallelBehavior)
    (cmds : List CommandBlob) :
    runParallelV1 false beh cmds =
      ParallelResult.completed
        ((cmds.all fun c => startedOk (beh c)) &&
          ((cmds.filter fun c => startedOk (beh c)).all fun c =>
            match beh c with
            | ParallelBehavior.exited code => code == 0
            | _ => true))
        (cmds.filter fun c => startedOk (beh c)) := by
  unfold runParallelV1
  rw [launchPhaseV1_spec, collectPhaseV1_unbuffered]

theorem aggregateFlagV1_iff (beh : CommandBlob → ParallelBehavior) (cmds : List CommandBlob) :
    (((cmds.all fun c => startedOk (beh c)) &&
      ((cmds.filter fun c => startedOk (beh c)).all fun c =>
        match beh c with
        | ParallelBehavior.exited code => code == 0
        | _ => true)) = true) ↔
      ∀ c ∈ cmds, beh c = ParallelBehavior.exited 0 := by
  rw [Bool.and_eq_true]
  constructor
  · rintro ⟨h1, h2⟩ c hc
    have hs : startedOk (beh c) = true := List.all_eq_true.mp h1 c hc
    cases hb : beh c with
    | launchErr => rw [hb] at hs; exact absurd hs (by simp [startedOk])
    | startErr => rw [hb] at hs; exact absurd hs (by simp [startedOk])
    | exited code =>
      have hmem : c ∈ cmds.filter fun c => startedOk (beh c) :=
        List.mem_filter.mpr ⟨hc, hs⟩
      have h3 := List.all_eq_true.mp h2 c hmem
      rw [hb] at h3
      have hz : code = 0 := by simpa using h3
      rw [hz]
  · intro h
    refine ⟨List.all_eq_true.mpr fun c hc => ?_, List.all_eq_true.mpr fun c hc => ?_⟩
    · rw [h c hc]; rfl
    · have hc2 : c ∈ cmds := (List.mem_filter.mp hc).1
      rw [h c hc2]
      rfl

theorem scriptPathResolver_ok (rloc : List Char → List Char) (ws : List Char) (c : CommandBlob) :
    scriptPathResolver rloc ws c = .ok (scriptPath rloc ws c.path).1 := by
  unfold scriptPathResolver scriptPath
  cases h : List.isPrefixOf marker c.path <;> simp [h]

theorem resolveAll_map (rloc : List Char → List Char) (ws : List Char) :
    ∀ cmds : List CommandBlob,
      resolveAll (scriptPathResolver rloc ws) cmds =
        .ok (cmds.map fun c => { c with path := (scriptPath rloc ws c.path).1 }) := by
  intro cmds
  induction cmds with
  | nil => rfl
  | cons c rest ih => simp [resolveAll, scriptPathResolver_ok, ih]

theorem scriptPath_external (rloc : List Char → List Char) (ws rest : List Char) :
    (scriptPath rloc ws (marker ++ rest)).1 = rloc rest := by
  have h : List.isPrefixOf marker (marker ++ rest) = true := by
    rw [List.isPrefixOf_iff_prefix]
    exact List.prefix_append _ _
  simp [scriptPath, h, marker]

theorem mainRunV1_abort (res : CommandBlob → Except (List Char) (List Char))
    (behS : CommandBlob → SerialBehavior) (behP : CommandBlob → ParallelBehavior)
    (instr : InstructionsFile) (e : List Char)
    (h : resolveAll res instr.commands = .error e) :
    mainRunV1 res behS behP instr = .configAbort e := by
  unfold mainRunV1
  rw [h]

theorem mainRunV1_run (rloc : List Char → List Char) (ws : List Char)
    (behS : CommandBlob → SerialBehavior) (behP : CommandBlob → ParallelBehavior)
    (instr : InstructionsFile) :
    mainRunV1 (scriptPathResolver rloc ws) behS behP instr =
      (if instr.jobs = 0 then
         match runParallelV1 instr.bufferOutput behP (instr.commands.map fun c =>
             { c with path := (scriptPath rloc ws c.path).1 }) with
         | .panicked ps => MainOutcome.panicked true ps
         | .completed ok ps => MainOutcome.ran true ok ps
       else
         MainOutcome.ran false
           (runSerialV1 instr.keepGoing behS (instr.commands.map fun c =>
             { c with path := (scriptPath rloc ws c.path).1 })).1
           (runSerialV1 instr.keepGoing behS (instr.commands.map fun c =>
             { c with path := (scriptPath rloc ws c.path).1 })).2) := by
  unfold mainRunV1
  rw [resolveAll_map]

/-- C1: with `keepGoing = true` both serial executors reach every command
exactly once, but they report success unconditionally, whatever each
command's outcome was — variant 1's comment at line 179 says "Mark overall
failure but keep going" yet nothing marks it, and variant 2 only logs
"Command failed" — so the overall result is not failure when a command
failed, contradicting the claim's failure-aggregation half. -/
theorem serial_keep_going_always_reports_success
    (behS : CommandBlob → SerialBehavior) (behS2 : CommandBlob → Option RunError)
    (cmds : List CommandBlob) :
    runSerialV1 true behS cmds = (true, cmds) ∧ runSerialV2 true behS2 cmds = (true, cmds) :=
  ⟨runSerialV1_keepGoing behS cmds, runSerialV2_keepGoing behS2 cmds⟩

/-- C2: evaluation at the failing input — `keepGoing = false` and two
commands that both fail to launch, so `cmd.Run()` returns an error that is
not an `*exec.ExitError`: the first serial executor reaches both commands
and reports overall success, instead of stopping at the first failing
command with overall failure as the claim states. -/
theorem serial_fail_fast_swallows_launch_error :
    runSerialV1 false (fun _ => SerialBehavior.ran (some RunError.otherError)) [blobA, blobB] =
      (true, [blobA, blobB]) := rfl

/-- C3: with `bufferOutput = true` the first variant emits no block at all —
its collect goroutine calls `StdoutPipe` after `Start` (line 245), the call
fails with the error discarded, the child's combined output went to the null
device, and `io.Copy` panics on the nil reader, killing the engine before
anything is printed; evaluated here at a one-command plan whose child starts
and exits 0.  The second variant does emit one tagged contiguous block per
child, but its body is the scanner reassembly of the captured bytes: for the
capture `"x"` with no trailing newline the emitted block is `"[t]\nx\n"`,
one byte longer than what the child wrote, so byte-identity fails there
too (`bufferedBodyV2_eq` below shows reassembly is the identity exactly on
newline-terminated, carriage-return-free captures). -/
theorem buffered_block_divergence :
    runParallelV1 true behPOk [blobA] = ParallelResult.panicked [blobA] ∧
    bufferedBodyV2 ['x'] = ['x', '\n'] ∧
    emitBufferedV2 ['t'] ['x'] = '[' :: ['t'] ++ ']' :: '\n' :: ['x', '\n'] :=
  ⟨rfl, rfl, rfl⟩

/-- C4: the first concurrent executor overwrites the stored stdin handle
with `cmd.Stdin` — the pipe's read end — at line 217, immediately after
line 215 stored the correct write end.  Writes of forwarded lines therefore
fail (silently, the error is discarded) and no byte of the parent's input is
ever delivered to any child, whatever the input is; at end of input it is
also this read end, not the write end, that gets closed, so a child waiting
on stdin never sees end-of-input either. -/
theorem forward_stdin_delivers_nothing :
    runningProcStdinV1 true = some PipeEnd.readEnd ∧
    forwardStdinDelivered (runningProcStdinV1 true) [['h', 'i']] = [] ∧
    ∀ lines : List (List Char), forwardStdinDelivered (runningProcStdinV1 true) lines = [] := by
  refine ⟨rfl, rfl, fun lines => ?_⟩
  induction lines with
  | nil => rfl
  | cons l rest ih =>
    simp [forwardStdinDelivered, runningProcStdinV1, stdinPipeChildField, deliverWrite, ih]

/-- C7 counterexample: in serial mode the child's standard input is not
connected to the parent's standard input in either variant (stdout and
stderr are, but `Stdin` is never assigned). -/
theorem serial_stdin_not_parent :
    ¬(serialStdioV1.stdout = StdStream.parentOut ∧ serialStdioV1.stderr = StdStream.parentErr ∧
      serialStdioV1.stdin = StdStream.parentIn) ∧
    ¬(serialStdioV2.stdout = StdStream.parentOut ∧ serialStdioV2.stderr = StdStream.parentErr ∧
      serialStdioV2.stdin = StdStream.parentIn) := by decide

/-- C7 (amended): in serial mode every child is started with stdout and
stderr connected directly to the parent's streams, and with standard input
connected to the null device (the `Stdin` field stays nil and Go's `os/exec`
then wires fd 0 to `os.DevNull`). -/
theorem serial_stdio_actual :
    serialStdioV1 =
      { stdout := StdStream.parentOut, stderr := StdStream.parentErr
        stdin := StdStream.nullDevice } ∧
    serialStdioV2 =
      { stdout := StdStream.parentOut, stderr := StdStream.parentErr
        stdin := StdStream.nullDevice } := ⟨rfl, rfl⟩

/-- C10: `scriptPath` returns a nil error for every workspace name and every
command path, so the per-command resolution abort in `main` (lines 305-308)
is unreachable: a run resolving through `scriptPath` never produces the
`configAbort` outcome. -/
theorem script_path_never_fails (rloc : List Char → List Char) (ws p : List Char) :
    (scriptPath rloc ws p).2 = none ∧
    ∀ (behS : CommandBlob → SerialBehavior) (behP : CommandBlob → ParallelBehavior)
      (instr : InstructionsFile) (e : List Char),
        mainRunV1 (scriptPathResolver rloc ws) behS behP instr ≠
          MainOutcome.configAbort e := by
  constructor
  · unfold scriptPath
    cases h : List.isPrefixOf marker p <;> simp [h]
  · intro behS behP instr e hc
    rw [mainRunV1_run] at hc
    by_cases hj : instr.jobs = 0
    · rw [if_pos hj] at hc
      split at hc
      · exact MainOutcome.noConfusion hc
      · exact MainOutcome.noConfusion hc
    · rw [if_neg hj] at hc
      exact MainOutcome.noConfusion hc

/-- C8: each command's path is resolved exactly once, before any executor
runs — `main` maps `scriptPath` over the plan and only then dispatches; a
path starting with the `../` marker resolves through `Rlocation` applied to
the path with the marker stripped, and any other path resolves through
`Rlocation` applied to the workspace-joined path; and if the resolution loop
fails for any command, `main` aborts with that error before any executor —
hence any process — starts. -/
theorem load_time_resolution (rloc : List Char → List Char) (ws : List Char)
    (behS : CommandBlob → SerialBehavior) (behP : CommandBlob → ParallelBehavior)
    (q : List Char) (hq : List.isPrefixOf marker q = false)
    (res : CommandBlob → Except (List Char) (List Char))
    (bad : InstructionsFile) (e : List Char)
    (hbad : resolveAll res bad.commands = Except.error e) :
    (∀ rest, (scriptPath rloc ws (marker ++ rest)).1 = rloc rest) ∧
    (scriptPath rloc ws q).1 = rloc (joinPath ws q) ∧
    (∀ instr : InstructionsFile,
        resolveAll (scriptPathResolver rloc ws) instr.commands =
          Except.ok (instr.commands.map fun c =>
            { c with path := (scriptPath rloc ws c.path).1 })) ∧
    mainRunV1 res behS behP bad = MainOutcome.configAbort e := by
  refine ⟨fun rest => scriptPath_external rloc ws rest, ?_,
    fun instr => resolveAll_map rloc ws _, mainRunV1_abort res behS behP bad e hbad⟩
  simp [scriptPath, hq]

/-- C8 witness: the four parts of `load_time_resolution` at concrete
inputs — an external path, an in-workspace path, a concrete plan, and a
resolver that fails on the plan's only command. -/
theorem load_time_resolution_witness :
    (scriptPath (fun l => l) ['w'] (marker ++ ['x'])).1 = ['x'] ∧
    (scriptPath (fun l => l) ['w'] ['x']).1 = joinPath ['w'] ['x'] ∧
    resolveAll (scriptPathResolver (fun l => l) ['w']) instrSerialOne.commands =
      Except.ok (instrSerialOne.commands.map fun c =>
        { c with path := (scriptPath (fun l => l) ['w'] c.path).1 }) ∧
    mainRunV1 resFail behSOk behPOk instrSerialOne = MainOutcome.configAbort ['b'] := by
  obtain ⟨h1, h2, h3, h4⟩ :=
    load_time_resolution (fun l => l) ['w'] behSOk behPOk ['x'] (by decide) resFail
      instrSerialOne ['b'] rfl
  exact ⟨h1 ['x'], h2, h3 instrSerialOne, h4⟩

/-- C9: exactly one executor runs per invocation — `main` dispatches to the
concurrent executor exactly when `jobs = 0` and to the serial one exactly
when `jobs ≠ 0` (`MainOutcome.ranParallel` records which one ran, also when
the concurrent executor's buffered collect path dies in a panic) — and each
executor only consumes the loaded plan: its trace of reached/started
commands is a sublist of the plan's (resolved) command list, which execution
never modifies. -/
theorem executor_selection (rloc : List Char → List Char) (ws : List Char)
    (behS : CommandBlob → SerialBehavior) (behP : CommandBlob → ParallelBehavior)
    (instr : InstructionsFile) (kg bo : Bool) (cmds : List CommandBlob) :
    ((mainRunV1 (scriptPathResolver rloc ws) behS behP instr).ranParallel = some true ↔
      instr.jobs = 0) ∧
    ((mainRunV1 (scriptPathResolver rloc ws) behS behP instr).ranParallel = some false ↔
      ¬instr.jobs = 0) ∧
    ((runSerialV1 kg behS cmds).2).Sublist cmds ∧
    ((runParallelV1 bo behP cmds).procs).Sublist cmds := by
  refine ⟨?_, ?_, runSerialV1_trace_sublist kg behS cmds, ?_⟩
  · rw [mainRunV1_run]
    by_cases hj : instr.jobs = 0
    · rw [if_pos hj]
      split <;> simp [MainOutcome.ranParallel, hj]
    · rw [if_neg hj]
      simp [MainOutcome.ranParallel, hj]
  · rw [mainRunV1_run]
    by_cases hj : instr.jobs = 0
    · rw [if_pos hj]
      split <;> simp [MainOutcome.ranParallel, hj]
    · rw [if_neg hj]
      simp [MainOutcome.ranParallel, hj]
  · rw [runParallelV1_procs]
    exact List.filter_sublist cmds

/-- C5: the launch loop is per-command exactly as the claim says — the
started set is a pointwise filter of the plan, so a launch failure is
recorded for that command only and failures never short-circuit the
launching of the others — and with `bufferOutput = false` the first variant
reports success iff every command started and exited 0, as does the second
variant (absent forwarded stdin, whose panic is C4's subject).  But the
claim quantifies over all concurrent plans, and with `bufferOutput = true`
the first variant panics (`StdoutPipe` after `Start`, then `io.Copy` on the
nil reader) and reports nothing at all — evaluated here at a plan whose only
command starts and exits 0 — so the reports-success-iff part is false on the
code. -/
theorem parallel_aggregate_divergence (behP : CommandBlob → ParallelBehavior)
    (behP2 : CommandBlob → Option Int) (cmds : List CommandBlob) (bo : Bool) :
    runParallelV1 true behPOk [blobA] = ParallelResult.panicked [blobA] ∧
    (runParallelV1 bo behP cmds).procs = cmds.filter (fun c => startedOk (behP c)) ∧
    ((∃ tr, runParallelV1 false behP cmds = ParallelResult.completed true tr) ↔
      ∀ c ∈ cmds, behP c = ParallelBehavior.exited 0) ∧
    (runParallelV2 behP2 cmds = true ↔ ∀ c ∈ cmds, behP2 c = some 0) := by
  refine ⟨rfl, runParallelV1_procs bo behP cmds, ?_, ?_⟩
  · rw [runParallelV1_unbuffered]
    constructor
    · rintro ⟨tr, htr⟩
      rw [ParallelResult.completed.injEq] at htr
      exact (aggregateFlagV1_iff behP cmds).mp htr.1
    · intro h
      refine ⟨cmds.filter fun c => startedOk (behP c), ?_⟩
      rw [(aggregateFlagV1_iff behP cmds).mpr h]
  · unfold runParallelV2
    rw [Bool.and_eq_true]
    constructor
    · rintro ⟨h1, h2⟩ c hc
      have hs := List.all_eq_true.mp h1 c hc
      have hw := List.all_eq_true.mp h2 c hc
      cases hb : behP2 c with
      | none => rw [hb] at hs; simp at hs
      | some code =>
        rw [hb] at hw
        have hz : code = 0 := by simpa using hw
        rw [hz]
    · intro h
      refine ⟨List.all_eq_true.mpr fun c hc => ?_,
        List.all_eq_true.mpr fun c hc => ?_⟩
      · rw [h c hc]; rfl
      · rw [h c hc]; rfl

/-- C9 witness: `executor_selection` at a concrete concurrent plan (the
concurrent executor is the one that runs) and a concrete serial trace. -/
theorem executor_selection_witness :
    (mainRunV1 (scriptPathResolver (fun l => l) ['w']) behSOk behPOk
      instrParallelOne).ranParallel = some true ∧
    ((runSerialV1 false behSOk [blobA]).2).Sublist [blobA] := by
  obtain ⟨h1, h2, h3, h4⟩ := executor_selection (fun l => l) ['w'] behSOk behPOk
    instrParallelOne false false [blobA]
  exact ⟨h1.mpr rfl, h3⟩

/-- C10 witness: `script_path_never_fails` at a concrete path and a concrete
one-command plan. -/
theorem script_path_never_fails_witness :
    (scriptPath (fun l => l) ['w'] ['x']).2 = none ∧
    mainRunV1 (scriptPathResolver (fun l => l) ['w']) behSOk behPOk instrSerialOne ≠
      MainOutcome.configAbort ['e'] := by
  obtain ⟨h1, h2⟩ := script_path_never_fails (fun l => l) ['w'] ['x']
  exact ⟨h1, h2 behSOk behPOk instrSerialOne ['e']⟩

theorem keyOf_envEntry (k v : List Char) (hk : '=' ∉ k) : keyOf (envEntry k v) = k := by
  induction k with
  | nil => rfl
  | cons a t ih =>
    have ha : a ≠ '=' := fun h => hk (h ▸ List.mem_cons_self a t)
    have ht : '=' ∉ t := fun h => hk (List.mem_cons_of_mem a h)
    simp only [envEntry, List.cons_append, keyOf]
    rw [List.takeWhile_cons, if_pos (by simpa using ha)]
    exact congrArg (List.cons a) (by simpa [envEntry, keyOf] using ih ht)

theorem valueOf_envEntry (k v : List Char) (hk : '=' ∉ k) : valueOf (envEntry k v) = v := by
  induction k with
  | nil => simp [envEntry, valueOf]
  | cons a t ih =>
    have ha : a ≠ '=' := fun h => hk (h ▸ List.mem_cons_self a t)
    have ht : '=' ∉ t := fun h => hk (List.mem_cons_of_mem a h)
    simp only [envEntry, List.cons_append, valueOf]
    rw [List.dropWhile_cons, if_pos (by simpa using ha)]
    simpa [envEntry, valueOf] using ih ht

theorem find?_unique {α : Type} {p : α → Bool} {es : List α} {e₀ : α}
    (hmem : e₀ ∈ es) (hp : p e₀ = true)
    (huniq : ∀ e ∈ es, p e = true → e = e₀) :
    es.find? p = some e₀ := by
  induction es with
  | nil => cases hmem
  | cons a t ih =>
    cases ha : p a with
    | false =>
      have hm : e₀ ∈ t := by
        rcases List.mem_cons.mp hmem with h | h
        · subst h; rw [hp] at ha; cases ha
        · exact h
      rw [List.find?_cons, ha]
      exact ih hm fun e he hpe => huniq e (List.mem_cons_of_mem a he) hpe
    | true =>
      have : a = e₀ := huniq a (List.mem_cons_self a t) ha
      rw [List.find?_cons, ha, this]

theorem lookupEnv_dedupEnv (k : List Char) :
    ∀ env : List (List Char), lookupEnv (dedupEnv env) k = lookupEnv env.reverse k := by
  intro env
  induction env with
  | nil => rfl
  | cons e rest ih =>
    rw [List.reverse_cons]
    unfold lookupEnv at ih ⊢
    rw [List.find?_append]
    by_cases hdup : rest.any (fun r => keyOf r == keyOf e) = true
    · rw [show dedupEnv (e :: rest) = dedupEnv rest from by rw [dedupEnv, if_pos hdup]]
      by_cases hk : keyOf e = k
      · obtain ⟨r, hr, hre⟩ := List.any_eq_true.mp hdup
        have hrk : keyOf r = k := by rw [beq_iff_eq.mp hre, hk]
        have hsome : (rest.reverse.find? fun e2 => keyOf e2 == k).isSome = true :=
          List.find?_isSome.mpr ⟨r, List.mem_reverse.mpr hr, beq_iff_eq.mpr hrk⟩
        obtain ⟨x, hx⟩ := Option.isSome_iff_exists.mp hsome
        rw [hx, Option.or_some, ← hx, ih]
      · have hfe : (keyOf e == k) = false := beq_eq_false_iff_ne.mpr hk
        have hnone : ([e].find? fun e2 => keyOf e2 == k) = none := by
          simp only [List.find?_cons, hfe, List.find?_nil]
        rw [hnone, Option.or_none, ih]
    · rw [show dedupEnv (e :: rest) = e :: dedupEnv rest from by
        rw [dedupEnv, if_neg hdup]]
      by_cases hk : keyOf e = k
      · have hte : (keyOf e == k) = true := beq_iff_eq.mpr hk
        have hnone : (rest.reverse.find? fun e2 => keyOf e2 == k) = none := by
          rw [List.find?_eq_none]
          intro x hx hpx
          refine hdup (List.any_eq_true.mpr ⟨x, List.mem_reverse.mp hx, beq_iff_eq.mpr ?_⟩)
          rw [beq_iff_eq.mp hpx, hk]
        rw [hnone, Option.none_or]
        simp only [List.find?_cons, hte]
      · have hfe : (keyOf e == k) = false := beq_eq_false_iff_ne.mpr hk
        simp only [List.find?_cons, hfe, List.find?_nil, Option.or_none]
        exact ih

theorem nodup_fst_eq {α β : Type} {l : List (α × β)} (h : (l.map Prod.fst).Nodup)
    {k : α} {v v2 : β} (h1 : (k, v) ∈ l) (h2 : (k, v2) ∈ l) : v = v2 := by
  induction l with
  | nil => cases h1
  | cons a t ih =>
    rw [List.map_cons, List.nodup_cons] at h
    rcases List.mem_cons.mp h1 with e1 | m1 <;> rcases List.mem_cons.mp h2 with e2 | m2
    · rw [← e2] at e1
      exact congrArg Prod.snd e1
    · exfalso
      apply h.1
      rw [← e1]
      exact List.mem_map.mpr ⟨(k, v2), m2, rfl⟩
    · exfalso
      apply h.1
      rw [← e2]
      exact List.mem_map.mpr ⟨(k, v), m1, rfl⟩
    · exact ih h.2 m1 m2

theorem find?_key_reverse (k : List Char) :
    ∀ env : List (List Char), (env.map keyOf).Nodup →
      env.reverse.find? (fun e => keyOf e == k) = env.find? (fun e => keyOf e == k) := by
  intro env
  induction env with
  | nil => exact fun _ => rfl
  | cons e rest ih =>
    intro h
    rw [List.map_cons, List.nodup_cons] at h
    rw [List.reverse_cons, List.find?_append, List.find?_cons]
    by_cases hk : keyOf e = k
    · have hnone : (rest.reverse.find? fun e2 => keyOf e2 == k) = none := by
        rw [List.find?_eq_none]
        intro x hx hpx
        exact h.1 (by
          rw [hk, ← beq_iff_eq.mp hpx]
          exact List.mem_map_of_mem keyOf (List.mem_reverse.mp hx))
      have hte : (keyOf e == k) = true := beq_iff_eq.mpr hk
      rw [hnone, Option.none_or]
      simp only [List.find?_cons, hte]
    · have hfe : (keyOf e == k) = false := beq_eq_false_iff_ne.mpr hk
      simp only [List.find?_cons, hfe, List.find?_nil, Option.or_none]
      exact ih h.2

/-- C6: the environment the child observes equals the parent's full
environment overlaid with the command's declared `env` map — a declared
entry takes precedence over an inherited variable of the same name, and a
name not declared resolves to the inherited entry.  Both variants build
`cmd.Env` as `os.Environ()` followed by the declared `k=v` entries, and Go's
`os/exec` starts the child after deduplicating that slice in favor of later
values, which is `childEnv`. -/
theorem child_env_overlay (parent : List (List Char))
    (declared : List (List Char × List Char))
    (hpk : (parent.map keyOf).Nodup)
    (hdk : (declared.map Prod.fst).Nodup)
    (heq : ∀ kv ∈ declared, '=' ∉ kv.1) :
    (∀ k v, (k, v) ∈ declared → lookupEnv (childEnv parent declared) k = some v) ∧
    (∀ k, (∀ kv ∈ declared, kv.1 ≠ k) →
      lookupEnv (childEnv parent declared) k = lookupEnv parent k) := by
  have hbase : ∀ k, lookupEnv (childEnv parent declared) k =
      (((flattenEnv declared).reverse.find? fun e => keyOf e == k).or
        (parent.reverse.find? fun e => keyOf e == k)).map valueOf := by
    intro k
    rw [childEnv, cmdEnvSlice, lookupEnv_dedupEnv, List.reverse_append]
    unfold lookupEnv
    rw [List.find?_append]
  constructor
  · intro k v hkv
    have hk := heq (k, v) hkv
    have hfind : ((flattenEnv declared).reverse.find? fun e => keyOf e == k) =
        some (envEntry k v) := by
      refine find?_unique (List.mem_reverse.mpr ?_) ?_ ?_
      · exact List.mem_map_of_mem (fun kv => envEntry kv.1 kv.2) hkv
      · exact beq_iff_eq.mpr (keyOf_envEntry k v hk)
      · intro e he hpe
        obtain ⟨⟨k2, v2⟩, hkv2, he2⟩ := List.mem_map.mp (List.mem_reverse.mp he)
        have hk2 : '=' ∉ k2 := heq (k2, v2) hkv2
        have : k2 = k := by
          rw [← beq_iff_eq.mp hpe, ← he2, keyOf_envEntry k2 v2 hk2]
        subst this
        rw [← he2, nodup_fst_eq hdk hkv2 hkv]
    rw [hbase k, hfind, Option.or_some]
    exact congrArg some (valueOf_envEntry k v hk)
  · intro k hnot
    have hnone : ((flattenEnv declared).reverse.find? fun e => keyOf e == k) = none := by
      rw [List.find?_eq_none]
      intro e he hpe
      obtain ⟨⟨k2, v2⟩, hkv2, he2⟩ := List.mem_map.mp (List.mem_reverse.mp he)
      have hk2 : '=' ∉ k2 := heq (k2, v2) hkv2
      refine hnot (k2, v2) hkv2 ?_
      rw [← beq_iff_eq.mp hpe, ← he2, keyOf_envEntry k2 v2 hk2]
    rw [hbase k, hnone, Option.none_or, find?_key_reverse k parent hpk]
    rfl

/-- C6 witness: `child_env_overlay` at a concrete parent environment
`A=1, B=2` and declared map `A=9`: the declared `A` wins and the inherited
`B` survives. -/
theorem child_env_overlay_witness :
    lookupEnv (childEnv parentEnvSample declaredSample) ['A'] = some ['9'] ∧
    lookupEnv (childEnv parentEnvSample declaredSample) ['B'] =
      lookupEnv parentEnvSample ['B'] := by
  obtain ⟨h1, h2⟩ := child_env_overlay parentEnvSample declaredSample
    (by decide) (by decide) (by decide)
  exact ⟨h1 ['A'] ['9'] (by decide), h2 ['B'] (by decide)⟩

theorem dropCR_of_not_mem {m : List Char} (h : '\r' ∉ m) : dropCR m = m := by
  have hne : m.getLast? ≠ some '\r' := by
    intro hg
    obtain ⟨hne, heq⟩ := List.mem_getLast?_eq_getLast (Option.mem_def.mpr hg)
    exact h (heq ▸ List.getLast_mem hne)
  unfold dropCR
  simp [hne]

theorem scanLinesAux_flatten :
    ∀ l cur : List Char, l ≠ [] → l.getLast? = some '\n' → '\r' ∉ cur → '\r' ∉ l →
      ((scanLinesAux cur l).map fun t => t ++ ['\n']).flatten = cur.reverse ++ l := by
  intro l
  induction l with
  | nil => exact fun cur h => absurd rfl h
  | cons c rest ih =>
    intro cur _ hlast hcur hl
    have hcr : c ≠ '\r' := fun h => hl (h ▸ List.mem_cons_self c rest)
    have hrest : '\r' ∉ rest := fun h => hl (List.mem_cons_of_mem c h)
    have hdrop : dropCR cur.reverse = cur.reverse :=
      dropCR_of_not_mem (fun h => hcur (List.mem_reverse.mp h))
    by_cases hc : c = '\n'
    · subst hc
      have hstep : scanLinesAux cur ('\n' :: rest) =
          dropCR cur.reverse :: scanLinesAux [] rest := by
        simp [scanLinesAux]
      by_cases hrn : rest = []
      · subst hrn
        simp [hstep, hdrop, scanLinesAux]
      · have hlast2 : rest.getLast? = some '\n' := by
          cases rest with
          | nil => exact absurd rfl hrn
          | cons r rs => rwa [List.getLast?_cons_cons] at hlast
        have hrec := ih [] hrn hlast2 (by simp) hrest
        simp only [List.reverse_nil, List.nil_append] at hrec
        rw [hstep, hdrop, List.map_cons, List.flatten_cons, hrec]
        simp
    · have hne2 : rest ≠ [] := by
        intro h
        rw [h] at hlast
        exact hc (by simpa using hlast)
      have hlast2 : rest.getLast? = some '\n' := by
        cases rest with
        | nil => exact absurd rfl hne2
        | cons r rs => rwa [List.getLast?_cons_cons] at hlast
      have hcur2 : '\r' ∉ c :: cur := by
        intro h
        rcases List.mem_cons.mp h with h | h
        · exact hcr h.symm
        · exact hcur h
      have hrec := ih (c :: cur) hne2 hlast2 hcur2 hrest
      have hstep : scanLinesAux cur (c :: rest) = scanLinesAux (c :: cur) rest := by
        simp [scanLinesAux, hc]
      rw [hstep, hrec]
      simp

theorem bufferedBodyV2_eq {captured : List Char} (h1 : captured.getLast? = some '\n')
    (h2 : '\r' ∉ captured) : bufferedBodyV2 captured = captured := by
  have hne : captured ≠ [] := by
    intro h
    rw [h] at h1
    cases h1
  have := scanLinesAux_flatten captured [] hne h1 (by simp) h2
  simpa [bufferedBodyV2, scanLines] using this

end Multirun
